import Mathlib

/-!
Shallow embedding of the task-tracking utility `hi-interview`
(`src/hi_interview/task_manager/task.py` and
`src/hi_interview/task_manager/task_manager.py`).

Modelling conventions:
* Python machine integers are `Nat`/`Int`; strings are Lean `String`.
* Python `None` becomes `Option.none`; Python truthiness of a value `x`
  (`if x:`) is made explicit (`none` and `0` and `""` are falsy).
* A raised exception becomes an `Option Err` / `Except Err` result; the
  state component of each operation's result is the in-memory state after
  the operation, including partial mutation performed before a raise.
* Date strings are modelled by the shape-level type `DateStr`: the code
  only ever produces and consumes ISO-style `YYYY-MM-DD` input strings and
  the canonical `DD.MM.YYYY` output of `strftime`.  `parseDate` models the
  third-party `dateutil.parser.parse` restricted to these two shapes with
  its default settings (`dayfirst=False`, `yearfirst` detected from a
  four-digit leading year): in an `A.B.YYYY` string a leading component
  larger than 12 is taken as the day, otherwise the string is read
  month-first; impossible dates are rejected.
* The two JSON files are carried inside the state (`tasksFile`,
  `optionsFile`); `save_tasks` / `save_options` overwrite them whole.
  `json.dump([task.to_dict() ...], f)` evaluates the comprehension after
  the file has been opened for writing, so when `to_dict` raises
  (`AttributeError`, see `Task.to_dict`) the file has already been
  truncated: this is modelled by `save_tasks` returning the truncated
  file together with a raised flag.
-/

namespace HiInterview

/-- `Priority` enum from task.py: LOW = 3, MEDIUM = 2, HIGH = 1. -/
inductive Priority
  | low
  | medium
  | high
deriving DecidableEq, Repr

/-- `Priority.value`: the underlying integer of the enum member. -/
def Priority.val : Priority → Int
  | .low => 3
  | .medium => 2
  | .high => 1

/-- `Priority(n)`: enum lookup by value; `none` models the `ValueError`
raised for a value outside the set of member values. -/
def Priority.ofInt? (n : Int) : Option Priority :=
  if n = 3 then some .low
  else if n = 2 then some .medium
  else if n = 1 then some .high
  else none

/-- A Gregorian calendar date, as held by a Python `datetime` object. -/
structure Date where
  day : Nat
  month : Nat
  year : Nat
deriving DecidableEq, Repr

def isLeap (y : Nat) : Bool :=
  y % 4 = 0 && (y % 100 ≠ 0 || y % 400 = 0)

def daysInMonth (m y : Nat) : Nat :=
  if m = 2 then (if isLeap y then 29 else 28)
  else if m = 4 ∨ m = 6 ∨ m = 9 ∨ m = 11 then 30
  else 31

/-- Validity as enforced by `datetime` construction (year range MINYEAR..MAXYEAR). -/
def Date.valid (d : Date) : Bool :=
  1 ≤ d.month && d.month ≤ 12 && 1 ≤ d.day && d.day ≤ daysInMonth d.month d.year
    && 1 ≤ d.year && d.year ≤ 9999

/-- The shape of the date strings the program produces and consumes:
`iso y m d` stands for `"YYYY-MM-DD"` and `dotted a b y` for `"A.B.YYYY"`. -/
inductive DateStr
  | iso (year month day : Nat)
  | dotted (a b : Nat) (year : Nat)
deriving DecidableEq, Repr

/-- `dateutil.parser.parse` restricted to the two shapes above, with the
default `dayfirst=False`.  For `"YYYY-MM-DD"` the leading four-digit value
is the year and the rest is month then day.  For `"A.B.YYYY"` a component
above 31 cannot be a day, a component above 12 must be the day, and the
ambiguous case (both at most 12) is read month-first. -/
def parseDate : DateStr → Option Date
  | .iso y m d =>
      if (Date.mk d m y).valid then some ⟨d, m, y⟩ else none
  | .dotted a b y =>
      if 31 < a ∨ 31 < b then none
      else if 12 < a then
        if (Date.mk a b y).valid then some ⟨a, b, y⟩ else none
      else
        if (Date.mk b a y).valid then some ⟨b, a, y⟩ else none

/-- `strftime("%d.%m.%Y")`. -/
def Date.render (d : Date) : DateStr := .dotted d.day d.month d.year

/-- `validate_and_format_date` from task.py: parse, then render as
`DD.MM.YYYY`; `none` models the raised `ValueError("Invalid date")`. -/
def validate_and_format_date (s : DateStr) : Option DateStr :=
  (parseDate s).map Date.render

/-- A runtime value reaching the dynamically-typed `priority` field: a
`Priority` enum member, a plain `int`, or a `str` (the CLI passes the raw
string through on update). -/
inductive PrioVal
  | enum (p : Priority)
  | intv (n : Int)
  | strv (s : String)
deriving DecidableEq, Repr

/-- Python truthiness of such a value (enum members are truthy objects). -/
def PrioVal.truthy : PrioVal → Bool
  | .enum _ => true
  | .intv n => n ≠ 0
  | .strv s => s ≠ ""

structure Task where
  id : Nat
  title : String
  description : String
  category : String
  due_date : DateStr
  priority : PrioVal
  status : Bool
deriving DecidableEq, Repr

/-- `Task.__init__`: stores the fields, normalizing `due_date` through
`validate_and_format_date`; `none` models the propagated ValueError. -/
def Task.init (id : Nat) (title description category : String)
    (due_date : DateStr) (priority : PrioVal) (status : Bool) : Option Task :=
  (validate_and_format_date due_date).map fun dd =>
    ⟨id, title, description, category, dd, priority, status⟩

/-- `x if x else old` for an optional string argument: `None` and the
empty string both leave the old value in place. -/
def strArg (new : Option String) (old : String) : String :=
  match new with
  | some s => if s = "" then old else s
  | none => old

/-- `priority if priority else self.priority`. -/
def prioArg (new : Option PrioVal) (old : PrioVal) : PrioVal :=
  match new with
  | some p => if p.truthy then p else old
  | none => old

/-- `Task.update`: in-place partial overwrite, assigning title,
description, category, due_date, priority in that order.  The returned
flag records whether `validate_and_format_date` raised; in that case the
assignments before the due_date line have already happened and the
priority line is not reached. -/
def Task.update (t : Task) (title description category : Option String)
    (due_date : Option DateStr) (priority : Option PrioVal) : Task × Bool :=
  let t3 : Task :=
    { t with
      title := strArg title t.title
      description := strArg description t.description
      category := strArg category t.category }
  match due_date with
  | some d =>
      match validate_and_format_date d with
      | some dd => ({ t3 with due_date := dd, priority := prioArg priority t3.priority }, false)
      | none => (t3, true)
  | none => ({ t3 with priority := prioArg priority t3.priority }, false)

/-- The plain mapping produced by `Task.to_dict` (all seven keys present,
priority as its underlying integer). -/
structure TaskDict where
  id : Nat
  title : String
  description : String
  category : String
  due_date : DateStr
  priority : Int
  status : Bool
deriving DecidableEq, Repr

/-- `Task.to_dict`: reads `self.priority.value`; when the field does not
hold an enum member (possible after an unvalidated update) the attribute
access raises `AttributeError`, modelled by `none`. -/
def Task.to_dict (t : Task) : Option TaskDict :=
  match t.priority with
  | .enum p => some ⟨t.id, t.title, t.description, t.category, t.due_date, p.val, t.status⟩
  | .intv _ => none
  | .strv _ => none

/-- `Task.from_dict`: `Priority(task_data["priority"])` then the
constructor; `none` models both the `ValueError` for a bad priority value
and the `ValueError` for a bad date. -/
def Task.from_dict (d : TaskDict) : Option Task :=
  match Priority.ofInt? d.priority with
  | some p => Task.init d.id d.title d.description d.category d.due_date (.enum p) d.status
  | none => none

/-- The error kinds a task-manager operation can surface. -/
inductive Err
  | validationError
  | invalidPriority
  | invalidDate
  | notFound
  | attributeError
deriving DecidableEq, Repr

/-- The TaskManager state: the in-memory task list and options `id` entry,
plus the contents of tasks.json and of the `id` entry of options.json. -/
structure TMState where
  tasks : List Task
  optId : Option Nat
  tasksFile : List TaskDict
  optionsFile : Option Nat
deriving DecidableEq, Repr

/-- The comprehension `[task.to_dict() for task in tasks]`: `none` as soon
as one `to_dict` call raises. -/
def mapToDict : List Task → Option (List TaskDict)
  | [] => some []
  | t :: rest =>
      match t.to_dict, mapToDict rest with
      | some d, some ds => some (d :: ds)
      | _, _ => none

/-- `save_tasks`: rewrite tasks.json with `[task.to_dict() for task in
self.tasks]`.  The file is opened (truncated) before the comprehension
runs, so a raising `to_dict` leaves an empty file; the flag records the
propagated exception. -/
def save_tasks (s : TMState) : TMState × Bool :=
  match mapToDict s.tasks with
  | some ds => ({ s with tasksFile := ds }, false)
  | none => ({ s with tasksFile := [] }, true)

/-- `max((task.id for task in self.tasks), default=0)`. -/
def maxTaskId (ts : List Task) : Nat :=
  ts.foldl (fun m t => max m t.id) 0

/-- The value `__get_next_id` will return in state `s`:
`options.get("id")` when that is present and truthy, otherwise
`max(ids, default=0) + 1`. -/
def nextAlloc (s : TMState) : Nat :=
  match s.optId with
  | some n => if n = 0 then maxTaskId s.tasks + 1 else n
  | none => maxTaskId s.tasks + 1

/-- `TaskManager.__get_next_id`: computes the id, stores `current_id + 1`
in the options and saves the options file, then returns the id. -/
def get_next_id (s : TMState) : Nat × TMState :=
  let current := nextAlloc s
  (current, { s with optId := some (current + 1), optionsFile := some (current + 1) })

/-- `TaskManager.add_task`.  The emptiness loop checks the truthiness of
title, description, category, due_date and priority (a `DateStr` models a
non-empty string and is always truthy; `priority = 0` is falsy); then the
priority is looked up in the enum; only then is the id allocated and the
task constructed, whose date validation may raise; on success the task is
appended and the collection saved. -/
def add_task (s : TMState) (title description category : String)
    (due_date : DateStr) (priority : Int) (status : Bool) :
    TMState × Except Err Task :=
  if title = "" ∨ description = "" ∨ category = "" ∨ priority = 0 then
    (s, .error .validationError)
  else
    match Priority.ofInt? priority with
    | none => (s, .error .invalidPriority)
    | some p =>
        let idAndState := get_next_id s
        match Task.init idAndState.1 title description category due_date (.enum p) status with
        | none => (idAndState.2, .error .invalidDate)
        | some task =>
            let s2 := { idAndState.2 with tasks := idAndState.2.tasks ++ [task] }
            let saved := save_tasks s2
            (saved.1, if saved.2 then .error .attributeError else .ok task)

/-- Truthiness of the optional `task_id` argument (`if task_id:`). -/
def truthyNat : Option Nat → Bool
  | some n => n ≠ 0
  | none => false

/-- Truthiness of the optional `category` argument (`elif category:`). -/
def truthyStr : Option String → Bool
  | some s => s ≠ ""
  | none => false

/-- `TaskManager.delete_task`: keep the tasks whose id (respectively
category) differs from the supplied value, then save; raise
`ValueError("Task id or category must be provided")` when both arguments
are falsy.  Comparisons with the supplied value are written on
`Option`-lifted fields so that the branch guard and the comparison use the
same argument. -/
def delete_task (s : TMState) (task_id : Option Nat) (category : Option String) :
    TMState × Option Err :=
  if truthyNat task_id then
    let s1 := { s with tasks := s.tasks.filter fun t => !(some t.id == task_id) }
    let saved := save_tasks s1
    (saved.1, if saved.2 then some .attributeError else none)
  else if truthyStr category then
    let s1 := { s with tasks := s.tasks.filter fun t => !(some t.category == category) }
    let saved := save_tasks s1
    (saved.1, if saved.2 then some .attributeError else none)
  else
    (s, some .validationError)

/-- In-place update of the first task with the given id in the list:
`none` when no task matches; otherwise the new list together with the
raised-flag of `Task.update` on the matched element. -/
def updateAt (task_id : Nat) (f : Task → Task × Bool) :
    List Task → Option (List Task × Bool)
  | [] => none
  | t :: rest =>
      if t.id = task_id then
        let r := f t
        some (r.1 :: rest, r.2)
      else
        (updateAt task_id f rest).map fun lr => (t :: lr.1, lr.2)

/-- `TaskManager.update_task`: find the task, apply the entity-level
update, then save; `ValueError("Task not found")` when the loop falls
through.  When the entity update raises (bad date) the exception
propagates before `save_tasks` is called, with the task already partially
mutated in memory. -/
def update_task (s : TMState) (task_id : Nat)
    (title description category : Option String)
    (due_date : Option DateStr) (priority : Option PrioVal) :
    TMState × Option Err :=
  match updateAt task_id
      (fun t => t.update title description category due_date priority) s.tasks with
  | none => (s, some .notFound)
  | some (ts, raised) =>
      if raised then ({ s with tasks := ts }, some .invalidDate)
      else
        let saved := save_tasks { s with tasks := ts }
        (saved.1, if saved.2 then some .attributeError else none)

/-- `task.title.lower().split()`: lower-case, split on whitespace runs,
drop empty pieces. -/
def lowerWords (s : String) : List String :=
  (s.toLower.split Char.isWhitespace).filter fun w => w ≠ ""

/-- `a == b &&` style character-list helpers for Python's substring
containment `needle in hay`. -/
def chPre : List Char → List Char → Bool
  | [], _ => true
  | _ :: _, [] => false
  | a :: as, b :: bs => a == b && chPre as bs

def chSub (needle : List Char) : List Char → Bool
  | [] => needle.isEmpty
  | b :: bs => chPre needle (b :: bs) || chSub needle bs

/-- Python `needle in hay` on strings. -/
def strContains (hay needle : String) : Bool :=
  chSub needle.toList hay.toList

/-- `TaskManager.get_tasks`: AND of three guards, each disabled when its
argument is falsy (`None`, the empty list — and for `status` also
`False`). -/
def get_tasks (s : TMState) (keywords categories : Option (List String))
    (status : Option Bool) : List Task :=
  s.tasks.filter fun t =>
    (match keywords with
     | none => true
     | some ks =>
         ks.isEmpty || ks.any fun k => (lowerWords t.title).contains k.toLower)
    && (match categories with
        | none => true
        | some cs =>
            cs.isEmpty || cs.any fun c => strContains t.category.toLower c.toLower)
    && (match status with
        | none => true
        | some b => !b || (t.status == b))

/-! ### Operation traces for the identifier-allocation claims -/

/-- One mutating operation on the store: an `add_task` call or a
`delete_task` call with the given arguments. -/
inductive Op
  | add (title description category : String) (due_date : DateStr)
      (priority : Int) (status : Bool)
  | del (task_id : Option Nat) (category : Option String)

/-- Apply one operation and report the identifier it allocated, if any.
An allocation is observable as a change of the stored options id, which
`__get_next_id` always sets to the allocated value plus one. -/
def stepLog (s : TMState) : Op → TMState × Option Nat
  | .add ti de ca dd p st =>
      ((add_task s ti de ca dd p st).1,
        if (add_task s ti de ca dd p st).1.optId = s.optId then none
        else (add_task s ti de ca dd p st).1.optId.map fun n => n - 1)
  | .del i c => ((delete_task s i c).1, none)

/-- Run a sequence of operations. -/
def execOps (s : TMState) : List Op → TMState
  | [] => s
  | op :: rest => execOps (stepLog s op).1 rest

/-- The identifiers allocated along a sequence of operations, in order. -/
def allocLog (s : TMState) : List Op → List Nat
  | [] => []
  | op :: rest =>
      match (stepLog s op).2 with
      | some a => a :: allocLog (stepLog s op).1 rest
      | none => allocLog (stepLog s op).1 rest

/-- The store invariant the program maintains: whenever the options id is
present and truthy, it is strictly above every held task id.  A freshly
initialized store (no options file) satisfies it trivially, and every
operation preserves it. -/
def tmInv (s : TMState) : Bool :=
  match s.optId with
  | some n => n == 0 || s.tasks.all fun t => t.id < n
  | none => true

/-! ### Concrete data used by counterexamples and witnesses -/

/-- The concrete task of the C2 counterexample: constructed from the ISO
due date `2003-01-02`, stored as `02.01.2003`. -/
def c2Task : Task :=
  ⟨7, "Task 1", "Description 1", "Category 1", .dotted 2 1 2003, .enum .low, false⟩

/-- A completed task, for the status-filter counterexample. -/
def c1Task : Task :=
  ⟨1, "Report", "Write it", "Work", .dotted 28 12 2003, .enum .low, true⟩

/-- A store holding only the completed task `c1Task`. -/
def c1State : TMState :=
  ⟨[c1Task], some 2, [⟨1, "Report", "Write it", "Work", .dotted 28 12 2003, 3, true⟩], some 2⟩

/-- An empty, freshly initialized store. -/
def emptyState : TMState := ⟨[], none, [], none⟩

/-- An incomplete task with id 1, for the delete and update claims. -/
def c6Task : Task :=
  ⟨1, "Report", "Write it", "Work", .dotted 28 12 2003, .enum .low, false⟩

/-- A store holding only `c6Task`, consistently persisted. -/
def c6State : TMState :=
  ⟨[c6Task], some 2, [⟨1, "Report", "Write it", "Work", .dotted 28 12 2003, 3, false⟩], some 2⟩

/-- The operation sequence exercised by the C4 witness: two successful
adds, an add whose date is rejected, and a delete. -/
def w4Ops : List Op :=
  [ .add "Task 1" "Description 1" "Category 1" (.iso 2003 12 28) 3 false,
    .add "Task 2" "Description 2" "Category 2" (.iso 2003 12 28) 1 false,
    .del (some 1) none,
    .add "Task 3" "Description 3" "Category 3" (.iso 2003 31 31) 2 false,
    .add "Task 4" "Description 4" "Category 4" (.iso 2003 12 28) 2 false ]

/-! ### Basic lemmas about the date model -/

theorem daysInMonth_le (m y : Nat) : daysInMonth m y ≤ 31 := by
  unfold daysInMonth
  split
  · split <;> omega
  · split <;> omega

theorem daysInMonth_ge (m y : Nat) : 28 ≤ daysInMonth m y := by
  unfold daysInMonth
  split
  · split <;> omega
  · split <;> omega

theorem date_valid_iff (d : Date) :
    d.valid = true ↔
      1 ≤ d.month ∧ d.month ≤ 12 ∧ 1 ≤ d.day ∧ d.day ≤ daysInMonth d.month d.year
        ∧ 1 ≤ d.year ∧ d.year ≤ 9999 := by
  simp [Date.valid, Bool.and_eq_true, decide_eq_true_eq, and_assoc]

theorem parseDate_valid {s : DateStr} {dt : Date} (h : parseDate s = some dt) :
    dt.valid = true := by
  cases s with
  | iso y m d =>
      simp only [parseDate] at h
      by_cases hc : (Date.mk d m y).valid = true
      · rw [if_pos hc] at h
        cases h
        exact hc
      · rw [if_neg hc] at h
        cases h
  | dotted a b y =>
      simp only [parseDate] at h
      by_cases h31 : 31 < a ∨ 31 < b
      · rw [if_pos h31] at h
        cases h
      · rw [if_neg h31] at h
        by_cases h12 : 12 < a
        · rw [if_pos h12] at h
          by_cases hc : (Date.mk a b y).valid = true
          · rw [if_pos hc] at h
            cases h
            exact hc
          · rw [if_neg hc] at h
            cases h
        · rw [if_neg h12] at h
          by_cases hc : (Date.mk b a y).valid = true
          · rw [if_pos hc] at h
            cases h
            exact hc
          · rw [if_neg hc] at h
            cases h

/-- Re-parsing a rendered `DD.MM.YYYY` date: a day above 12 is read back
correctly, an ambiguous day is read as the month (and conversely). -/
theorem parseDate_render {dt : Date} (hv : dt.valid = true) :
    parseDate (Date.render dt) =
      some (if 12 < dt.day then dt else ⟨dt.month, dt.day, dt.year⟩) := by
  obtain ⟨hm1, hm2, hd1, hd2, hy1, hy2⟩ := (date_valid_iff dt).mp hv
  have hd31 : dt.day ≤ 31 := le_trans hd2 (daysInMonth_le _ _)
  simp only [Date.render, parseDate]
  rw [if_neg (by omega)]
  by_cases h12 : 12 < dt.day
  · rw [if_pos h12, if_pos h12]
    have heta : (⟨dt.day, dt.month, dt.year⟩ : Date) = dt := rfl
    rw [heta, if_pos hv]
  · rw [if_neg h12, if_neg h12]
    have hvalid : (Date.valid ⟨dt.month, dt.day, dt.year⟩) = true := by
      rw [date_valid_iff]
      dsimp only
      have h28 := daysInMonth_ge dt.day dt.year
      exact ⟨hd1, by omega, hm1, by omega, hy1, hy2⟩
    rw [if_pos hvalid]

theorem ofInt_val (p : Priority) : Priority.ofInt? p.val = some p := by
  cases p <;> rfl

/-! ### Claims C3 and C2: date normalization and serialization round-trip -/

/-- Claim C3 (counterexample): the ISO string `2003-01-02` normalizes to
`02.01.2003`, which re-normalizes to `01.02.2003` — the permissive parser
reads the ambiguous rendered date month-first, so normalization is not
idempotent on it. -/
theorem C3_counterexample :
    validate_and_format_date (.iso 2003 1 2) = some (.dotted 2 1 2003) ∧
    validate_and_format_date (.dotted 2 1 2003) = some (.dotted 1 2 2003) ∧
    (validate_and_format_date (.iso 2003 1 2)).bind validate_and_format_date
      ≠ validate_and_format_date (.iso 2003 1 2) := by
  decide

/-- Claim C3 (amended): for a valid ISO-like date string whose day of
month either exceeds 12 or equals the month, normalization is idempotent:
`normalize (normalize d) = normalize d`. -/
theorem C3_amended (y m d : Nat) (dt : Date)
    (h : parseDate (.iso y m d) = some dt)
    (hd : 12 < dt.day ∨ dt.day = dt.month) :
    (validate_and_format_date (.iso y m d)).bind validate_and_format_date
      = validate_and_format_date (.iso y m d) := by
  have hv : dt.valid = true := parseDate_valid h
  have hround : validate_and_format_date (Date.render dt) = some (Date.render dt) := by
    unfold validate_and_format_date
    rw [parseDate_render hv]
    rcases hd with h12 | heq
    · rw [if_pos h12]; rfl
    · by_cases h12 : 12 < dt.day
      · rw [if_pos h12]; rfl
      · rw [if_neg h12]
        have heta : (⟨dt.month, dt.day, dt.year⟩ : Date) = dt := by
          cases dt; simp_all
        rw [heta]; rfl
  unfold validate_and_format_date at hround ⊢
  rw [h]
  simpa using hround

/-- Witness for C3_amended at the concrete input `2003-12-28`. -/
theorem C3_amended_witness :
    (validate_and_format_date (.iso 2003 12 28)).bind validate_and_format_date
      = validate_and_format_date (.iso 2003 12 28) :=
  C3_amended 2003 12 28 ⟨28, 12, 2003⟩ (by decide) (by decide)

/-- Claim C2 (counterexample): a task built from due date `2003-01-02`
round-trips through `to_dict` / `from_dict` into a task whose due date is
`01.02.2003` — day and month are swapped, so the round-trip is not the
identity. -/
theorem C2_counterexample :
    Task.init 7 "Task 1" "Description 1" "Category 1" (.iso 2003 1 2)
        (.enum .low) false = some c2Task ∧
    c2Task.to_dict.bind Task.from_dict
      = some { c2Task with due_date := .dotted 1 2 2003 } ∧
    DateStr.dotted 1 2 2003 ≠ c2Task.due_date := by
  refine ⟨by decide, by decide, by decide⟩

/-- Claim C2 (amended): for every successfully constructed task the
round-trip `from_dict (to_dict t)` succeeds and agrees with `t` on id,
title, description, category, priority and status; the due date is
re-read through the month-first parser, so it is preserved exactly when
the stored day exceeds 12 or equals the stored month. -/
theorem C2_amended (i : Nat) (ti de ca : String) (d : DateStr) (p : Priority)
    (st : Bool) (t : Task) (dt : Date)
    (hd : parseDate d = some dt)
    (h : Task.init i ti de ca d (.enum p) st = some t) :
    t.to_dict.bind Task.from_dict
      = some { t with
          due_date := Date.render
            (if 12 < dt.day then dt else ⟨dt.month, dt.day, dt.year⟩) } ∧
    ((12 < dt.day ∨ dt.day = dt.month) → t.to_dict.bind Task.from_dict = some t) := by
  have hv : dt.valid = true := parseDate_valid hd
  have ht : t = ⟨i, ti, de, ca, Date.render dt, .enum p, st⟩ := by
    unfold Task.init validate_and_format_date at h
    rw [hd] at h
    exact (Option.some_inj.mp h).symm
  subst ht
  have hmain :
      (Task.to_dict ⟨i, ti, de, ca, Date.render dt, .enum p, st⟩).bind Task.from_dict
      = some ⟨i, ti, de, ca,
          Date.render (if 12 < dt.day then dt else ⟨dt.month, dt.day, dt.year⟩),
          .enum p, st⟩ := by
    show (some ⟨i, ti, de, ca, Date.render dt, p.val, st⟩ : Option TaskDict).bind
        Task.from_dict = _
    rw [Option.some_bind]
    unfold Task.from_dict
    rw [ofInt_val]
    unfold Task.init validate_and_format_date
    rw [parseDate_render hv]
    rfl
  refine ⟨hmain, fun hcond => ?_⟩
  rw [hmain]
  rcases hcond with h12 | heq
  · rw [if_pos h12]
  · rcases Nat.lt_or_ge 12 dt.day with h12 | h12
    · rw [if_pos h12]
    · rw [if_neg (by omega)]
      have : (⟨dt.month, dt.day, dt.year⟩ : Date) = dt := by
        cases dt; simp_all
      rw [this]

/-- Witness for C2_amended at the concrete task built from `2003-12-28`. -/
theorem C2_amended_witness :
    (Task.to_dict ⟨7, "Task 1", "Description 1", "Category 1",
        .dotted 28 12 2003, .enum .low, false⟩).bind Task.from_dict
      = some ⟨7, "Task 1", "Description 1", "Category 1",
          .dotted 28 12 2003, .enum .low, false⟩ :=
  (C2_amended 7 "Task 1" "Description 1" "Category 1" (.iso 2003 12 28) .low false
    _ ⟨28, 12, 2003⟩ (by decide) (by decide)).2 (by decide)

/-! ### Claims C7 and C1: query filters -/

/-- Claim C7: a query with no keywords, no categories and no status
returns the entire collection in insertion order. -/
theorem C7_theorem (s : TMState) : get_tasks s none none none = s.tasks := by
  unfold get_tasks
  simp

/-- Claim C1 (counterexample): querying with `status=False` returns the
completed task `c1Task` as well — the guard `not status or ...` is
vacuously true for `False`, so `status=False` imposes no constraint. -/
theorem C1_counterexample :
    c1Task ∈ get_tasks c1State none none (some false) ∧ c1Task.status = true := by
  exact ⟨by decide, rfl⟩

/-- Pulling an extra conjunct `t.status` out of a filter. -/
theorem filter_and_status (l : List Task) (p : Task → Bool) :
    (l.filter fun t => p t && t.status) = (l.filter p).filter fun t => t.status := by
  induction l with
  | nil => rfl
  | cons t rest ih =>
      by_cases hp : p t = true
      · by_cases hs : t.status = true
        · simp [List.filter_cons, hp, hs, ih]
        · simp [List.filter_cons, hp, hs, ih]
      · simp [List.filter_cons, hp, ih]

/-- Claim C1 (amended): the status argument is an exact filter only when
it is `True`; `status=False` behaves exactly like an absent status filter
(the keyword and category filters still AND-combine as before). -/
theorem C1_amended (s : TMState) (kw cats : Option (List String)) :
    get_tasks s kw cats (some false) = get_tasks s kw cats none ∧
    get_tasks s kw cats (some true)
      = (get_tasks s kw cats none).filter fun t => t.status := by
  constructor
  · unfold get_tasks
    apply List.filter_congr
    intro t _
    simp
  · unfold get_tasks
    rw [← filter_and_status]
    apply List.filter_congr
    intro t _
    cases ht : t.status <;> simp [ht]

/-! ### Claim C5: invalid priority on add -/

/-- Claim C5 (counterexample): with all remaining arguments non-empty,
`add_task` with priority `0` fails with the empty-field `ValidationError`
(the truthiness loop fires first), not with `InvalidPriority`. -/
theorem C5_counterexample :
    add_task emptyState "Task 1" "Description 1" "Category 1"
        (.iso 2003 12 28) 0 false = (emptyState, .error .validationError) ∧
    Err.validationError ≠ Err.invalidPriority := by
  exact ⟨rfl, by decide⟩

/-- Claim C5 (amended): for a priority outside the set of member values 1,
2, 3 that is also nonzero, `add_task` with non-empty arguments fails with
`InvalidPriority` and returns the store unchanged (priority `0` instead
trips the emptiness validation, see the counterexample — the store is
unchanged in that case too). -/
theorem C5_amended (s : TMState) (ti de ca : String) (d : DateStr) (p : Int)
    (st : Bool) (hti : ti ≠ "") (hde : de ≠ "") (hca : ca ≠ "")
    (hp0 : p ≠ 0) (hp1 : p ≠ 1) (hp2 : p ≠ 2) (hp3 : p ≠ 3) :
    add_task s ti de ca d p st = (s, .error .invalidPriority) := by
  unfold add_task
  rw [if_neg (by tauto)]
  have hP : Priority.ofInt? p = none := by
    unfold Priority.ofInt?
    rw [if_neg hp3, if_neg hp2, if_neg hp1]
  rw [hP]

/-- Witness for C5_amended at priority 4 on the empty store. -/
theorem C5_amended_witness :
    add_task emptyState "Task 1" "Description 1" "Category 1"
        (.iso 2003 12 28) 4 false = (emptyState, .error .invalidPriority) :=
  C5_amended emptyState "Task 1" "Description 1" "Category 1" (.iso 2003 12 28)
    4 false (by decide) (by decide) (by decide) (by decide) (by decide)
    (by decide) (by decide)

/-! ### Lemmas about saving -/

theorem save_tasks_spec (s : TMState) :
    (save_tasks s).1.tasks = s.tasks ∧ (save_tasks s).1.optId = s.optId ∧
    (save_tasks s).1.optionsFile = s.optionsFile ∧
    ((save_tasks s).2 = false →
      mapToDict (save_tasks s).1.tasks = some (save_tasks s).1.tasksFile) := by
  unfold save_tasks
  cases hm : mapToDict s.tasks with
  | none => simp
  | some ds => simp [hm]

theorem mapToDict_isSome {l : List Task}
    (h : ∀ t ∈ l, (Task.to_dict t).isSome = true) :
    ∃ ds, mapToDict l = some ds := by
  induction l with
  | nil => exact ⟨[], rfl⟩
  | cons t rest ih =>
      obtain ⟨d, hd⟩ := Option.isSome_iff_exists.mp (h t (by simp))
      obtain ⟨ds, hds⟩ := ih fun u hu => h u (by simp [hu])
      exact ⟨d :: ds, by simp [mapToDict, hd, hds]⟩

/-! ### Claims C6 and C10: delete selectors -/

/-- Claim C6 (counterexample): `delete_task` called with the id selector
supplied as 0 (and no category) raises `ValidationError` even though a
selector was supplied — truthiness, not presence, drives the branch. -/
theorem C6_counterexample :
    delete_task c6State (some 0) none = (c6State, some .validationError) ∧
    (some 0 : Option Nat) ≠ none := by
  exact ⟨rfl, by decide⟩

/-- Claim C6 (amended): `delete_task` raises `ValidationError` exactly
when both selectors are falsy (id absent or 0, category absent or empty),
and then leaves the store unchanged; the selectors are not mutually
exclusive: a truthy id wins and applies the id filter, otherwise a truthy
category applies the category filter; a selector matching zero tasks is a
no-op without error (the filter keeps every task); in every case that
raises nothing the filtered collection is persisted to the tasks file. -/
theorem C6_amended (s : TMState) (tid : Option Nat) (cat : Option String) :
    ((delete_task s tid cat).2 = some Err.validationError ↔
        truthyNat tid = false ∧ truthyStr cat = false) ∧
    (truthyNat tid = false → truthyStr cat = false →
        delete_task s tid cat = (s, some Err.validationError)) ∧
    (truthyNat tid = true →
        (delete_task s tid cat).1.tasks
          = s.tasks.filter fun t => !(some t.id == tid)) ∧
    (truthyNat tid = false → truthyStr cat = true →
        (delete_task s tid cat).1.tasks
          = s.tasks.filter fun t => !(some t.category == cat)) ∧
    ((delete_task s tid cat).2 = none →
        mapToDict (delete_task s tid cat).1.tasks
          = some (delete_task s tid cat).1.tasksFile) := by
  by_cases h1 : truthyNat tid = true
  · have hD : delete_task s tid cat
        = ((save_tasks { s with tasks := s.tasks.filter fun t => !(some t.id == tid) }).1,
           if (save_tasks { s with tasks := s.tasks.filter fun t => !(some t.id == tid) }).2
           then some Err.attributeError else none) := by
      unfold delete_task
      rw [if_pos h1]
    have hspec := save_tasks_spec { s with tasks := s.tasks.filter fun t => !(some t.id == tid) }
    rw [hD]
    refine ⟨?_, ?_, ?_, ?_, ?_⟩
    · cases hsv : (save_tasks { s with tasks := s.tasks.filter fun t => !(some t.id == tid) }).2 <;>
        simp [hsv, h1]
    · intro hfalse
      rw [h1] at hfalse
      cases hfalse
    · intro _
      exact hspec.1
    · intro hfalse
      rw [h1] at hfalse
      cases hfalse
    · intro hnone
      cases hsv : (save_tasks { s with tasks := s.tasks.filter fun t => !(some t.id == tid) }).2 with
      | false => exact hspec.2.2.2 hsv
      | true => rw [hsv] at hnone; cases hnone
  · have h1f : truthyNat tid = false := by
      cases htr : truthyNat tid
      · rfl
      · exact absurd htr h1
    by_cases h2 : truthyStr cat = true
    · have hD : delete_task s tid cat
          = ((save_tasks { s with tasks := s.tasks.filter fun t => !(some t.category == cat) }).1,
             if (save_tasks { s with tasks := s.tasks.filter fun t => !(some t.category == cat) }).2
             then some Err.attributeError else none) := by
        unfold delete_task
        rw [if_neg h1, if_pos h2]
      have hspec := save_tasks_spec
        { s with tasks := s.tasks.filter fun t => !(some t.category == cat) }
      rw [hD]
      refine ⟨?_, ?_, ?_, ?_, ?_⟩
      · cases hsv : (save_tasks { s with tasks := s.tasks.filter fun t => !(some t.category == cat) }).2 <;>
          simp [hsv, h1f, h2]
      · intro _ hfalse
        rw [h2] at hfalse
        cases hfalse
      · intro htrue
        rw [htrue] at h1f
        cases h1f
      · intro _ _
        exact hspec.1
      · intro hnone
        cases hsv : (save_tasks { s with tasks := s.tasks.filter fun t => !(some t.category == cat) }).2 with
        | false => exact hspec.2.2.2 hsv
        | true => rw [hsv] at hnone; cases hnone
    · have h2f : truthyStr cat = false := by
        cases htr : truthyStr cat
        · rfl
        · exact absurd htr h2
      have hD : delete_task s tid cat = (s, some Err.validationError) := by
        unfold delete_task
        rw [if_neg h1, if_neg h2]
      rw [hD]
      refine ⟨by simp [h1f, h2f], fun _ _ => rfl, ?_, ?_, ?_⟩
      · intro htrue
        rw [htrue] at h1f
        cases h1f
      · intro _ htrue
        rw [htrue] at h2f
        cases h2f
      · intro hnone
        cases hnone

/-- Witness for C6_amended: deleting id 1 from the one-task store empties
it and persists the empty collection. -/
theorem C6_amended_witness :
    (delete_task c6State (some 1) none).1.tasks
      = c6State.tasks.filter fun t => !(some t.id == some 1) :=
  (C6_amended c6State (some 1) none).2.2.1 rfl

/-- Claim C10: when a nonzero id and a category are both supplied, no
`ValidationError` is raised (indeed no error at all on a well-formed
store), the call behaves exactly as if the category had not been passed,
and only the id filter is applied. -/
theorem C10_theorem (s : TMState) (i : Nat) (c : String) (hi : i ≠ 0)
    (hw : ∀ t ∈ s.tasks, (Task.to_dict t).isSome = true) :
    delete_task s (some i) (some c) = delete_task s (some i) none ∧
    (delete_task s (some i) (some c)).1.tasks
      = s.tasks.filter (fun t => !(some t.id == some i)) ∧
    (delete_task s (some i) (some c)).2 = none := by
  have h1 : truthyNat (some i) = true := by
    unfold truthyNat
    simp [hi]
  have hD : ∀ cat : Option String, delete_task s (some i) cat
      = ((save_tasks { s with tasks := s.tasks.filter fun t => !(some t.id == some i) }).1,
         if (save_tasks { s with tasks := s.tasks.filter fun t => !(some t.id == some i) }).2
         then some Err.attributeError else none) := by
    intro cat
    unfold delete_task
    rw [if_pos h1]
  obtain ⟨ds, hds⟩ := mapToDict_isSome
    (l := s.tasks.filter fun t => !(some t.id == some i))
    (fun t ht => hw t (List.mem_of_mem_filter ht))
  have hsave : save_tasks { s with tasks := s.tasks.filter fun t => !(some t.id == some i) }
      = ({ s with
            tasks := s.tasks.filter (fun t => !(some t.id == some i))
            tasksFile := ds }, false) := by
    unfold save_tasks
    simp only [hds]
  refine ⟨(hD (some c)).trans (hD none).symm, ?_, ?_⟩
  · rw [hD (some c), hsave]
  · rw [hD (some c), hsave]
    rfl

/-- Witness for C10 on the one-task store: the category argument is
ignored and the id filter applies. -/
theorem C10_witness :
    delete_task c6State (some 1) (some "Work") = delete_task c6State (some 1) none ∧
    (delete_task c6State (some 1) (some "Work")).1.tasks
      = c6State.tasks.filter (fun t => !(some t.id == some 1)) ∧
    (delete_task c6State (some 1) (some "Work")).2 = none :=
  C10_theorem c6State 1 "Work" (by decide) (by decide)

/-! ### Claim C9: failed-date add advances the saved counter -/

/-- Claim C9: with non-empty fields, a valid priority and a due date the
parser rejects, `add_task` raises `InvalidDate`; the task list and the
tasks file are untouched (the returned state changes only the options id
and the options file), but the options id has been advanced to the
allocated value plus one and saved; consequently the next allocation —
and the id of the task created by the next successful add — is
`nextAlloc s + 1`, skipping the value `nextAlloc s` that the same add
would have used had its date been valid. -/
theorem C9_theorem (s : TMState) (ti de ca : String) (d : DateStr) (p : Int)
    (prio : Priority) (st : Bool)
    (hti : ti ≠ "") (hde : de ≠ "") (hca : ca ≠ "")
    (hp : Priority.ofInt? p = some prio)
    (hd : parseDate d = none) :
    add_task s ti de ca d p st
      = ({ s with
            optId := some (nextAlloc s + 1)
            optionsFile := some (nextAlloc s + 1) }, .error .invalidDate) ∧
    nextAlloc { s with
        optId := some (nextAlloc s + 1)
        optionsFile := some (nextAlloc s + 1) } = nextAlloc s + 1 ∧
    (∀ d2 dt2, parseDate d2 = some dt2 →
      (add_task { s with
          optId := some (nextAlloc s + 1)
          optionsFile := some (nextAlloc s + 1) } ti de ca d2 p st).1.tasks
        = s.tasks ++ [⟨nextAlloc s + 1, ti, de, ca, Date.render dt2, .enum prio, st⟩] ∧
      (add_task s ti de ca d2 p st).1.tasks
        = s.tasks ++ [⟨nextAlloc s, ti, de, ca, Date.render dt2, .enum prio, st⟩]) := by
  have hp0 : p ≠ 0 := by
    intro h
    subst h
    simp [Priority.ofInt?] at hp
  have hne : ¬(ti = "" ∨ de = "" ∨ ca = "" ∨ p = 0) := by
    simp only [not_or]
    exact ⟨hti, hde, hca, hp0⟩
  have hsucc : ∀ w : TMState, ∀ d2 dt2, parseDate d2 = some dt2 →
      (add_task w ti de ca d2 p st).1.tasks
        = w.tasks ++ [⟨nextAlloc w, ti, de, ca, Date.render dt2, .enum prio, st⟩] := by
    intro w d2 dt2 hd2
    have hI : Task.init (get_next_id w).1 ti de ca d2 (PrioVal.enum prio) st
        = some ⟨(get_next_id w).1, ti, de, ca, Date.render dt2, .enum prio, st⟩ := by
      unfold Task.init validate_and_format_date
      rw [hd2]
      rfl
    unfold add_task
    rw [if_neg hne]
    simp only [hp, hI]
    rw [(save_tasks_spec _).1]
    rfl
  have hfail : add_task s ti de ca d p st
      = ({ s with
            optId := some (nextAlloc s + 1)
            optionsFile := some (nextAlloc s + 1) }, .error .invalidDate) := by
    have hI : Task.init (get_next_id s).1 ti de ca d (PrioVal.enum prio) st = none := by
      unfold Task.init validate_and_format_date
      rw [hd]
      rfl
    unfold add_task
    rw [if_neg hne]
    simp only [hp, hI]
    rfl
  refine ⟨hfail, rfl, fun d2 dt2 hd2 => ⟨?_, hsucc s d2 dt2 hd2⟩⟩
  rw [hsucc _ d2 dt2 hd2]
  rfl

/-- Witness for C9 on the empty store: the rejected date `2003-31-31`
advances the saved counter from fresh to 2, and the next successful add
creates the task with id 2 instead of 1. -/
theorem C9_witness :
    add_task emptyState "Task 1" "Description 1" "Category 1"
        (.iso 2003 31 31) 3 false
      = ({ emptyState with
            optId := some (nextAlloc emptyState + 1)
            optionsFile := some (nextAlloc emptyState + 1) }, .error .invalidDate) ∧
    nextAlloc { emptyState with
        optId := some (nextAlloc emptyState + 1)
        optionsFile := some (nextAlloc emptyState + 1) } = nextAlloc emptyState + 1 ∧
    (∀ d2 dt2, parseDate d2 = some dt2 →
      (add_task { emptyState with
          optId := some (nextAlloc emptyState + 1)
          optionsFile := some (nextAlloc emptyState + 1) }
          "Task 1" "Description 1" "Category 1" d2 3 false).1.tasks
        = emptyState.tasks ++ [⟨nextAlloc emptyState + 1, "Task 1", "Description 1",
            "Category 1", Date.render dt2, .enum .low, false⟩] ∧
      (add_task emptyState "Task 1" "Description 1" "Category 1" d2 3 false).1.tasks
        = emptyState.tasks ++ [⟨nextAlloc emptyState, "Task 1", "Description 1",
            "Category 1", Date.render dt2, .enum .low, false⟩]) :=
  C9_theorem emptyState "Task 1" "Description 1" "Category 1" (.iso 2003 31 31) 3
    Priority.low false (by decide) (by decide) (by decide) (by decide) (by decide)

/-! ### Claim C8: unvalidated priority updates -/

/-- Claim C8 (counterexample): updating the stored task's priority to the
plain integer 5 stores 5 in memory, but the call itself does not succeed:
persisting the collection evaluates `self.priority.value` and raises
`AttributeError` (after truncating the tasks file). -/
theorem C8_counterexample :
    (update_task c6State 1 none none none none (some (.intv 5))).2
        = some Err.attributeError ∧
    (update_task c6State 1 none none none none (some (.intv 5))).1.tasks
        = [{ c6Task with priority := PrioVal.intv 5 }] ∧
    (update_task c6State 1 none none none none (some (.intv 5))).1.tasksFile = [] := by
  refine ⟨rfl, rfl, rfl⟩

/-- Claim C8 (amended): neither entity-level nor store-level update
validates the priority: any truthy value is stored as given, so the
priority invariant can be broken.  The entity-level update succeeds and
returns with the field set to exactly `p`.  The store-level update sets
the in-memory field to exactly `p` as well, but the call as a whole
succeeds only when `p` is an actual `Priority` member: for any other
truthy value the subsequent `save_tasks` raises `AttributeError` (the
value has no `.value` attribute), after the mutation has happened. -/
theorem C8_amended (t : Task) (p : PrioVal) (s : TMState) (hp : p.truthy = true)
    (hs : s.tasks = [t]) :
    Task.update t none none none none (some p) = ({ t with priority := p }, false) ∧
    (update_task s t.id none none none none (some p)).1.tasks
        = [{ t with priority := p }] ∧
    ((update_task s t.id none none none none (some p)).2 = none
        ↔ ∃ q, p = PrioVal.enum q) ∧
    ((update_task s t.id none none none none (some p)).2 = none ∨
     (update_task s t.id none none none none (some p)).2 = some Err.attributeError) := by
  have hupd : Task.update t none none none none (some p)
      = ({ t with priority := p }, false) := by
    cases t
    simp [Task.update, strArg, prioArg, hp]
  have hstep : updateAt t.id (fun u => u.update none none none none (some p)) s.tasks
      = some ([{ t with priority := p }], false) := by
    rw [hs]
    simp [updateAt, hupd]
  have hmain : update_task s t.id none none none none (some p)
      = ((save_tasks { s with tasks := [{ t with priority := p }] }).1,
         if (save_tasks { s with tasks := [{ t with priority := p }] }).2
         then some Err.attributeError else none) := by
    unfold update_task
    rw [hstep]
    rfl
  have hspec := save_tasks_spec { s with tasks := [{ t with priority := p }] }
  refine ⟨hupd, ?_, ?_, ?_⟩
  · rw [hmain]
    exact hspec.1
  · rw [hmain]
    cases p with
    | enum q =>
        have hsv : save_tasks { s with tasks := [{ t with priority := PrioVal.enum q }] }
            = ({ s with
                  tasks := [{ t with priority := PrioVal.enum q }]
                  tasksFile := [⟨t.id, t.title, t.description, t.category,
                    t.due_date, q.val, t.status⟩] }, false) := by
          unfold save_tasks mapToDict Task.to_dict
          rfl
        rw [hsv]
        simp
    | intv n =>
        have hsv : (save_tasks { s with tasks := [{ t with priority := PrioVal.intv n }] }).2
            = true := by
          unfold save_tasks mapToDict Task.to_dict
          rfl
        rw [hsv]
        simp
    | strv str =>
        have hsv : (save_tasks { s with tasks := [{ t with priority := PrioVal.strv str }] }).2
            = true := by
          unfold save_tasks mapToDict Task.to_dict
          rfl
        rw [hsv]
        simp
  · rw [hmain]
    cases hsv : (save_tasks { s with tasks := [{ t with priority := p }] }).2
    · left
      rfl
    · right
      rfl

/-- Witness for C8_amended: priority updated to the raw integer 5 on the
one-task store; the result is either success or an AttributeError (here
the latter). -/
theorem C8_amended_witness :
    (update_task c6State c6Task.id none none none none (some (.intv 5))).2 = none ∨
    (update_task c6State c6Task.id none none none none (some (.intv 5))).2
      = some Err.attributeError :=
  (C8_amended c6Task (.intv 5) c6State (by decide) rfl).2.2.2

/-! ### Claim C4: identifier allocation along operation sequences -/

theorem foldl_max_init (ts : List Task) (a : Nat) :
    a ≤ ts.foldl (fun m t => max m t.id) a := by
  induction ts generalizing a with
  | nil => exact le_refl a
  | cons t rest ih => exact le_trans (le_max_left a t.id) (ih (max a t.id))

theorem foldl_max_mem {t : Task} : ∀ (ts : List Task) (a : Nat), t ∈ ts →
    t.id ≤ ts.foldl (fun m u => max m u.id) a
  | [], _, h => absurd h (List.not_mem_nil t)
  | u :: rest, a, h => by
      cases h with
      | head => exact le_trans (le_max_right a t.id) (foldl_max_init rest (max a t.id))
      | tail _ hmem => exact foldl_max_mem rest (max a u.id) hmem

theorem le_maxTaskId {t : Task} {ts : List Task} (h : t ∈ ts) :
    t.id ≤ maxTaskId ts :=
  foldl_max_mem ts 0 h

theorem tmInv_iff (s : TMState) :
    tmInv s = true ↔ ∀ n, s.optId = some n → n ≠ 0 → ∀ t ∈ s.tasks, t.id < n := by
  unfold tmInv
  cases hopt : s.optId with
  | none => simp
  | some n =>
      simp only [Bool.or_eq_true, beq_iff_eq, List.all_eq_true, decide_eq_true_eq,
        Option.some.injEq]
      constructor
      · rintro (h0 | hall) m hm hm0
        · rw [← hm] at hm0
          exact absurd h0 hm0
        · rw [← hm]
          exact hall
      · intro hh
        by_cases h0 : n = 0
        · exact Or.inl h0
        · exact Or.inr (hh n rfl h0)

theorem tasks_lt_nextAlloc {s : TMState} (h : tmInv s = true) :
    ∀ t ∈ s.tasks, t.id < nextAlloc s := by
  intro t ht
  have hiff := (tmInv_iff s).mp h
  unfold nextAlloc
  cases hopt : s.optId with
  | none => exact Nat.lt_succ_of_le (le_maxTaskId ht)
  | some n =>
      dsimp only
      by_cases h0 : n = 0
      · rw [if_pos h0]
        exact Nat.lt_succ_of_le (le_maxTaskId ht)
      · rw [if_neg h0]
        exact hiff n hopt h0 t ht

theorem optId_change (s : TMState) : some (nextAlloc s + 1) ≠ s.optId := by
  unfold nextAlloc
  cases hopt : s.optId with
  | none => exact Option.some_ne_none _
  | some n =>
      dsimp only
      by_cases h0 : n = 0
      · rw [if_pos h0, h0]
        intro hcon
        exact Nat.succ_ne_zero _ (Option.some_inj.mp hcon)
      · rw [if_neg h0]
        intro hcon
        have := Option.some_inj.mp hcon
        omega

theorem task_init_fields {i : Nat} {ti de ca : String} {dd : DateStr}
    {pr : PrioVal} {st : Bool} {t : Task}
    (h : Task.init i ti de ca dd pr st = some t) :
    ∃ d2, validate_and_format_date dd = some d2 ∧ t = ⟨i, ti, de, ca, d2, pr, st⟩ := by
  unfold Task.init at h
  obtain ⟨d2, hd2, hf⟩ := Option.map_eq_some'.mp h
  exact ⟨d2, hd2, hf.symm⟩

theorem add_task_state_cases (s : TMState) (ti de ca : String) (dd : DateStr)
    (p : Int) (st : Bool) :
    (add_task s ti de ca dd p st).1 = s ∨
    ((add_task s ti de ca dd p st).1.optId = some (nextAlloc s + 1) ∧
      ((add_task s ti de ca dd p st).1.tasks = s.tasks ∨
        ∃ task, task.id = nextAlloc s ∧
          (add_task s ti de ca dd p st).1.tasks = s.tasks ++ [task])) := by
  unfold add_task
  by_cases hempty : ti = "" ∨ de = "" ∨ ca = "" ∨ p = 0
  · rw [if_pos hempty]
    exact Or.inl rfl
  · rw [if_neg hempty]
    cases hP : Priority.ofInt? p with
    | none => exact Or.inl rfl
    | some prio =>
        dsimp only
        cases hI : Task.init (get_next_id s).1 ti de ca dd (PrioVal.enum prio) st with
        | none =>
            right
            exact ⟨rfl, Or.inl rfl⟩
        | some task =>
            right
            dsimp only
            refine ⟨?_, Or.inr ⟨task, ?_, ?_⟩⟩
            · rw [(save_tasks_spec _).2.1]
              rfl
            · obtain ⟨d2, hd2, hf⟩ := task_init_fields hI
              rw [hf]
              rfl
            · rw [(save_tasks_spec _).1]
              rfl

theorem delete_task_optId (s : TMState) (i : Option Nat) (c : Option String) :
    (delete_task s i c).1.optId = s.optId := by
  unfold delete_task
  by_cases h1 : truthyNat i = true
  · rw [if_pos h1]
    exact (save_tasks_spec _).2.1
  · rw [if_neg h1]
    by_cases h2 : truthyStr c = true
    · rw [if_pos h2]
      exact (save_tasks_spec _).2.1
    · rw [if_neg h2]

theorem delete_task_subset (s : TMState) (i : Option Nat) (c : Option String) :
    ∀ t ∈ (delete_task s i c).1.tasks, t ∈ s.tasks := by
  unfold delete_task
  by_cases h1 : truthyNat i = true
  · rw [if_pos h1]
    intro t ht
    have ht2 : t ∈ (save_tasks
        { s with tasks := s.tasks.filter fun u => !(some u.id == i) }).1.tasks := ht
    rw [(save_tasks_spec _).1] at ht2
    exact List.mem_of_mem_filter ht2
  · rw [if_neg h1]
    by_cases h2 : truthyStr c = true
    · rw [if_pos h2]
      intro t ht
      have ht2 : t ∈ (save_tasks
          { s with tasks := s.tasks.filter fun u => !(some u.category == c) }).1.tasks := ht
      rw [(save_tasks_spec _).1] at ht2
      exact List.mem_of_mem_filter ht2
    · rw [if_neg h2]
      intro t ht
      exact ht

theorem stepLog_cases (s : TMState) (op : Op) (h : tmInv s = true) :
    ((stepLog s op).2 = none ∧ (stepLog s op).1.optId = s.optId
        ∧ tmInv (stepLog s op).1 = true) ∨
    ((stepLog s op).2 = some (nextAlloc s)
        ∧ (stepLog s op).1.optId = some (nextAlloc s + 1)
        ∧ tmInv (stepLog s op).1 = true) := by
  cases op with
  | del i c =>
      left
      refine ⟨rfl, delete_task_optId s i c, ?_⟩
      rw [tmInv_iff]
      intro n hn hn0 t ht
      exact (tmInv_iff s).mp h n ((delete_task_optId s i c).symm.trans hn) hn0 t
        (delete_task_subset s i c t ht)
  | add ti de ca dd p st =>
      rcases add_task_state_cases s ti de ca dd p st with hsame | ⟨hoid, htasks⟩
      · left
        refine ⟨?_, ?_, ?_⟩
        · show (if (add_task s ti de ca dd p st).1.optId = s.optId then none
              else (add_task s ti de ca dd p st).1.optId.map fun n => n - 1) = none
          rw [hsame]
          simp
        · show (add_task s ti de ca dd p st).1.optId = s.optId
          rw [hsame]
        · show tmInv (add_task s ti de ca dd p st).1 = true
          rw [hsame]
          exact h
      · right
        refine ⟨?_, hoid, ?_⟩
        · show (if (add_task s ti de ca dd p st).1.optId = s.optId then none
              else (add_task s ti de ca dd p st).1.optId.map fun n => n - 1)
            = some (nextAlloc s)
          rw [hoid, if_neg (optId_change s)]
          rfl
        · rw [tmInv_iff]
          intro n hn hn0 t ht
          have hneq : n = nextAlloc s + 1 := by
            have hn2 : (add_task s ti de ca dd p st).1.optId = some n := hn
            rw [hoid] at hn2
            exact (Option.some_inj.mp hn2).symm
          subst hneq
          have ht2 : t ∈ (add_task s ti de ca dd p st).1.tasks := ht
          rcases htasks with hsame2 | ⟨task, hid, happ⟩
          · rw [hsame2] at ht2
            have := tasks_lt_nextAlloc h t ht2
            omega
          · rw [happ] at ht2
            rcases List.mem_append.mp ht2 with hmem | hmem
            · have := tasks_lt_nextAlloc h t hmem
              omega
            · have heq : t = task := by simpa using hmem
              rw [heq, hid]
              omega

theorem allocLog_lower (s : TMState) (ops : List Op) (n : Nat)
    (h : tmInv s = true) (hopt : s.optId = some n) (hn : n ≠ 0) :
    ∀ a ∈ allocLog s ops, n ≤ a := by
  induction ops generalizing s n with
  | nil =>
      intro a ha
      simp [allocLog] at ha
  | cons op rest ih =>
      have hnext : nextAlloc s = n := by
        unfold nextAlloc
        simp only [hopt]
        rw [if_neg hn]
      intro a ha
      rcases stepLog_cases s op h with ⟨hna, hoid, hinv⟩ | ⟨hsome, hoid, hinv⟩
      · simp only [allocLog, hna] at ha
        exact ih _ n hinv (hoid.trans hopt) hn a ha
      · simp only [allocLog, hsome] at ha
        rcases List.mem_cons.mp ha with he | hmem
        · omega
        · have hge := ih _ (nextAlloc s + 1) hinv hoid (Nat.succ_ne_zero _) a hmem
          omega

theorem allocLog_pairwise_lt (s : TMState) (ops : List Op) (h : tmInv s = true) :
    List.Pairwise (fun a b => a < b) (allocLog s ops) := by
  induction ops generalizing s with
  | nil => simp [allocLog]
  | cons op rest ih =>
      rcases stepLog_cases s op h with ⟨hna, _, hinv⟩ | ⟨hsome, hoid, hinv⟩
      · simp only [allocLog, hna]
        exact ih _ hinv
      · simp only [allocLog, hsome]
        rw [List.pairwise_cons]
        refine ⟨?_, ih _ hinv⟩
        intro b hb
        have hge := allocLog_lower (stepLog s op).1 rest (nextAlloc s + 1) hinv hoid
          (Nat.succ_ne_zero _) b hb
        omega

theorem execOps_inv (s : TMState) (pre : List Op) (h : tmInv s = true) :
    tmInv (execOps s pre) = true := by
  induction pre generalizing s with
  | nil => exact h
  | cons op rest ih =>
      rcases stepLog_cases s op h with ⟨_, _, hinv⟩ | ⟨_, _, hinv⟩ <;>
        exact ih _ hinv

/-- Claim C4: starting from any store satisfying the program's counter
invariant (in particular a freshly initialized one), along any sequence of
add and delete operations the allocated identifiers are strictly
increasing, pairwise distinct even across deletions, and at the moment of
each allocation the allocated identifier differs from every identifier
currently held by a task in the collection. -/
theorem C4_theorem (s : TMState) (ops : List Op) (h : tmInv s = true) :
    List.Chain' (fun a b => a < b) (allocLog s ops) ∧
    List.Pairwise (fun a b => a ≠ b) (allocLog s ops) ∧
    (∀ pre op post, ops = pre ++ op :: post →
      ∀ a, (stepLog (execOps s pre) op).2 = some a →
        ∀ t ∈ (execOps s pre).tasks, t.id ≠ a) := by
  refine ⟨(allocLog_pairwise_lt s ops h).chain',
    List.Pairwise.imp (fun hab => Nat.ne_of_lt hab) (allocLog_pairwise_lt s ops h), ?_⟩
  intro pre op post hsplit a ha t ht
  have hpre := execOps_inv s pre h
  rcases stepLog_cases (execOps s pre) op hpre with ⟨hna, _, _⟩ | ⟨hsome, _, _⟩
  · rw [hna] at ha
    cases ha
  · rw [hsome] at ha
    have haeq : a = nextAlloc (execOps s pre) := (Option.some_inj.mp ha).symm
    subst haeq
    exact Nat.ne_of_lt (tasks_lt_nextAlloc hpre t ht)

/-- Witness for C4 on the freshly initialized empty store, running two
successful adds, a delete, a failed-date add and another successful add:
the allocation log is strictly increasing. -/
theorem C4_witness :
    List.Chain' (fun a b => a < b) (allocLog emptyState w4Ops) :=
  (C4_theorem emptyState w4Ops rfl).1

end HiInterview
